import Mathlib

/-!
Verification of the color-extraction pipeline of qtPicColor
(`src/qtpiccolor/core/color_analyzer.py`).

The pipeline is shallowly embedded: an image is a list of rows of RGB
triples; Python `float` arithmetic on percentages, scale factors and
centroids is idealised as exact rational (`ℚ`) arithmetic except where a
claim is specifically about IEEE-754 double rounding, for which an exact
model of binary64 round-to-nearest-even is provided (`fl`).  Exceptions
are modelled with `Except`: the decode step that can fail inside the
`try` block of `extract_colors_by_pixel_count` is the `Except` input,
and the catch-all handler returns the default gray entry, exactly as in
the source.  The nondeterministic `random.randint` fallback of
`_find_color_position` is modelled by threading an explicit `rng`
argument that is consumed only on the (unreachable in this model)
error branch.
-/

namespace QtPicColor

/-- An RGB pixel: the three 8-bit channel values (as naturals). -/
abbrev Rgb := Nat × Nat × Nat

/-- Embedding of the `ColorInfo` dataclass of `core/models.py`
(fields `rgb`, `hex_code`, `percentage`, `position`). -/
structure ColorInfo where
  rgb : Rgb
  hex_code : String
  percentage : ℚ
  position : Option (Nat × Nat)
deriving DecidableEq, Repr

/-- Uppercase hexadecimal digit character for a value `n < 16`
(as produced by Python's `X` format). -/
def hexChar (n : Nat) : Char :=
  if n < 10 then Char.ofNat (48 + n) else Char.ofNat (55 + n)

/-- The hexadecimal digit string (list of chars, uppercase, no padding) of
`n`, as produced by Python's `X` format before width padding. -/
def hexRep (n : Nat) : List Char :=
  if _h : n < 16 then [hexChar n]
  else hexRep (n / 16) ++ [hexChar (n % 16)]
termination_by n
decreasing_by exact Nat.div_lt_self (by omega) (by omega)

/-- Zero-pad a digit list to width 2, as Python's `02X` format does. -/
def pad2 (l : List Char) : List Char :=
  if l.length < 2 then '0' :: l else l

/-- Embedding of `ColorAnalyzer._rgb_to_hex`:
`f"#{rgb[0]:02X}{rgb[1]:02X}{rgb[2]:02X}"`. -/
def rgb_to_hex (rgb : Rgb) : String :=
  ⟨'#' :: (pad2 (hexRep rgb.1) ++ pad2 (hexRep rgb.2.1) ++ pad2 (hexRep rgb.2.2))⟩

/-- Embedding of `ColorAnalyzer._create_default_color`: neutral gray,
100%, position `(0, 0)`. -/
def create_default_color : ColorInfo :=
  { rgb := (128, 128, 128)
    hex_code := "#808080"
    percentage := 100
    position := some (0, 0) }

/-- One step of `collections.Counter` building in `_count_colors`:
increment the count of `p` if present, else append `(p, 1)` at the end
(`Counter` preserves first-occurrence insertion order). -/
def addCount : List (Rgb × Nat) → Rgb → List (Rgb × Nat)
  | [], p => [(p, 1)]
  | (q, n) :: t, p => if q = p then (q, n + 1) :: t else (q, n) :: addCount t p

/-- Embedding of `ColorAnalyzer._count_colors`: the exact-color histogram
of the flattened pixel list, in first-occurrence order. -/
def count_colors (pixels : List Rgb) : List (Rgb × Nat) :=
  pixels.foldl addCount []

/-- Insert into a list sorted by count descending, after all strictly
larger counts and before equal ones (the stable placement that Python's
stable `sorted(..., key=lambda x: x[1], reverse=True)` produces). -/
def insertDesc (x : Rgb × Nat) : List (Rgb × Nat) → List (Rgb × Nat)
  | [] => [x]
  | y :: t => if x.2 < y.2 then y :: insertDesc x t else x :: y :: t

/-- Stable sort by count descending, embedding
`sorted(filtered_colors.items(), key=lambda x: x[1], reverse=True)`. -/
def sortDesc : List (Rgb × Nat) → List (Rgb × Nat)
  | [] => []
  | x :: t => insertDesc x (sortDesc t)

/-- Squared Euclidean RGB distance between two pixels (the source compares
`np.linalg.norm(img_array - target) < 30`; squaring both sides keeps the
comparison exact over the integers: `dist < 30 ↔ distSq < 900`). -/
def distSq (p t : Rgb) : ℤ :=
  ((p.1 : ℤ) - t.1) ^ 2 + ((p.2.1 : ℤ) - t.2.1) ^ 2 + ((p.2.2 : ℤ) - t.2.2) ^ 2

/-- The `(x, y)` coordinates, in row-major order, of the pixels of `img`
within Euclidean distance 30 of `target` (the `np.where(mask)` step of
`_find_color_position`). -/
def maskCoords (img : List (List Rgb)) (target : Rgb) : List (Nat × Nat) :=
  (img.enum.map (fun yr =>
    yr.2.enum.filterMap (fun xp =>
      if distSq xp.2 target < 900 then some (xp.1, yr.1) else none))).flatten

/-- The `except` branch of `_find_color_position`:
`random.randint(w // 4, w * 3 // 4)` and likewise for `y`; `randint a b`
returns a value in `[a, b]`, modelled as `a + r % (b - a + 1)`. -/
def random_fallback_position (ow oh : Nat) (rng : Nat × Nat) : Nat × Nat :=
  (ow / 4 + rng.1 % (ow * 3 / 4 - ow / 4 + 1),
   oh / 4 + rng.2 % (oh * 3 / 4 - oh / 4 + 1))

/-- The `try` body of `ColorAnalyzer._find_color_position`: mask of
near-matching pixels, centroid (`int(np.mean(...))`, idealised to the
exact rational mean truncated), map back to original coordinates by
dividing by the scale factor, clamp to the original bounds; image center
when the mask is empty.  None of these operations can fail in the
embedding, so the body always returns `ok`. -/
def find_color_position_body (img : List (List Rgb)) (target : Rgb)
    (s : ℚ) (ow oh : Nat) : Except String (Nat × Nat) :=
  .ok (
    let coords := maskCoords img target
    if 0 < coords.length then
      let cx := (coords.map (·.1)).sum / coords.length
      let cy := (coords.map (·.2)).sum / coords.length
      let ox := (⌊(cx : ℚ) / s⌋).toNat
      let oy := (⌊(cy : ℚ) / s⌋).toNat
      (min ox (ow - 1), min oy (oh - 1))
    else (ow / 2, oh / 2))

/-- Embedding of `ColorAnalyzer._find_color_position` with its
`try`/`except`: on an error the random fallback position is used. -/
def find_color_position (img : List (List Rgb)) (target : Rgb)
    (s : ℚ) (ow oh : Nat) (rng : Nat × Nat) : Nat × Nat :=
  match find_color_position_body img target s ow oh with
  | .ok p => p
  | .error _ => random_fallback_position ow oh rng

/-- Image width (`image.size[0]`): length of the first row. -/
def width (img : List (List Rgb)) : Nat := (img.headD []).length

/-- Image height (`image.size[1]`): number of rows. -/
def height (img : List (List Rgb)) : Nat := img.length

/-- The `scale_factor` variable of `extract_colors_by_pixel_count`:
`800 / max(size)` when the image exceeds 800 px on its longer side,
`1.0` otherwise (float division idealised to exact `ℚ`). -/
def scale_factor (ow oh : Nat) : ℚ :=
  if 800 < max ow oh then 800 / ((max ow oh : ℕ) : ℚ) else 1

/-- The `new_size` computed before `image.resize`:
`(int(width * scale_factor), int(height * scale_factor))`
(truncation of a nonnegative value is `Int.floor`). -/
def sampled_dims (ow oh : Nat) : Nat × Nat :=
  ((⌊(ow : ℚ) * scale_factor ow oh⌋).toNat, (⌊(oh : ℚ) * scale_factor ow oh⌋).toNat)

/-- The image whose pixels are histogrammed: the original when its longer
side is at most 800 px, otherwise its LANCZOS-resampled downscale.  The
resampler itself is PIL library code, abstracted as the parameter
`resample` applied to the computed `new_size`. -/
def sampled_image (resample : List (List Rgb) → Nat → Nat → List (List Rgb))
    (img : List (List Rgb)) : List (List Rgb) :=
  if 800 < max (width img) (height img) then
    resample img (sampled_dims (width img) (height img)).1
      (sampled_dims (width img) (height img)).2
  else img

/-- The first filtering step: retain histogram entries with
`count >= threshold`. -/
def filtered_counts (threshold : Nat) (counts : List (Rgb × Nat)) :
    List (Rgb × Nat) :=
  counts.filter fun kv => decide (threshold ≤ kv.2)

/-- The filtering with automatic relaxation: if fewer than 3 colors clear
`min_pixels`, refilter the histogram with `max(1, min_pixels // 10)`. -/
def relaxed_counts (min_pixels : Nat) (counts : List (Rgb × Nat)) :
    List (Rgb × Nat) :=
  if (filtered_counts min_pixels counts).length < 3 then
    filtered_counts (max 1 (min_pixels / 10)) counts
  else filtered_counts min_pixels counts

/-- Sort the retained histogram entries by count descending and keep the
top `max_colors` (`sorted_colors[:self.max_colors]`). -/
def ranked (max_colors min_pixels : Nat) (counts : List (Rgb × Nat)) :
    List (Rgb × Nat) :=
  (sortDesc (relaxed_counts min_pixels counts)).take max_colors

/-- Build one `ColorInfo` from a retained `(rgb, count)` pair:
`percentage = (pixel_count / total_pixels) * 100`, hex code from
`_rgb_to_hex`, position from `_find_color_position` on the sampled
array. -/
def mk_color_info (img2 : List (List Rgb)) (s : ℚ) (ow oh : Nat)
    (rng : Nat × Nat) (total : Nat) (kv : Rgb × Nat) : ColorInfo :=
  { rgb := kv.1
    hex_code := rgb_to_hex kv.1
    percentage := ((kv.2 : ℚ) / (total : ℚ)) * 100
    position := some (find_color_position img2 kv.1 s ow oh rng) }

/-- The body of the `try` block of `extract_colors_by_pixel_count`,
operating on a successfully decoded RGB image. -/
def extract_colors_ok (resample : List (List Rgb) → Nat → Nat → List (List Rgb))
    (img : List (List Rgb)) (max_colors min_pixels : Nat)
    (rng : Nat × Nat) : List ColorInfo :=
  (ranked max_colors min_pixels (count_colors (sampled_image resample img).flatten)).map
    (mk_color_info (sampled_image resample img)
      (scale_factor (width img) (height img))
      (width img) (height img) rng
      (sampled_image resample img).flatten.length)

/-- Embedding of `ColorAnalyzer.extract_colors_by_pixel_count`.  The
`Except` input is the decode step performed inside the `try` block
(`Image.open` and mode conversion); any exception there or later is
caught by the handler, which returns the single default gray entry. -/
def extract_colors_by_pixel_count
    (resample : List (List Rgb) → Nat → Nat → List (List Rgb))
    (input : Except String (List (List Rgb)))
    (max_colors min_pixels : Nat) (rng : Nat × Nat) : List ColorInfo :=
  match input with
  | .ok img => extract_colors_ok resample img max_colors min_pixels rng
  | .error _ => [create_default_color]

/-- A trivial resampler (identity on the image), used to instantiate the
abstract resampling parameter on images that are never resized. -/
def keepResample (img : List (List Rgb)) (_ _ : Nat) : List (List Rgb) := img

/-- Power `2 ^ e` in `ℚ` for an integer exponent, without `zpow`. -/
def pow2 (e : ℤ) : ℚ :=
  if 0 ≤ e then ((2 ^ e.toNat : ℕ) : ℚ) else 1 / ((2 ^ (-e).toNat : ℕ) : ℚ)

/-- Floor of the base-2 logarithm of a positive rational `x`: first
guess from the integer part of `x` (or of `x⁻¹` when `x < 1`), then
adjust by at most one. -/
def floorLog2 (x : ℚ) : ℤ :=
  let k : ℤ :=
    if 1 ≤ x then (Nat.log2 (⌊x⌋).toNat : ℤ)
    else -((Nat.log2 (⌊x⁻¹⌋).toNat : ℤ)) - 1
  if x < pow2 k then k - 1 else if pow2 (k + 1) ≤ x then k + 1 else k

/-- Round a rational to the nearest integer, ties to even. -/
def roundHalfEven (y : ℚ) : ℤ :=
  let f := ⌊y⌋
  let r := y - (f : ℚ)
  if r < 1 / 2 then f
  else if 1 / 2 < r then f + 1
  else if f % 2 = 0 then f else f + 1

/-- IEEE-754 binary64 rounding (round to nearest, ties to even) of a
positive rational in the normal range: the significand is kept to 53
bits.  This is the exact value a Python `float` stores for such a
rational; nonpositive inputs (which do not arise here) are returned
unchanged. -/
def fl (x : ℚ) : ℚ :=
  if x ≤ 0 then x
  else
    let e := floorLog2 x
    let u := pow2 (e - 52)
    (roundHalfEven (x / u) : ℚ) * u

/-- The longer side of `new_size` as the source actually computes it with
Python floats for an original longer side `d > 800`:
`scale_factor = 800 / d` rounds to a double, `d * scale_factor` rounds to
a double, and `int(...)` truncates. -/
def fp_resized_longer_side (d : Nat) : Nat :=
  (⌊fl ((d : ℚ) * fl (800 / (d : ℚ)))⌋).toNat

/-- The descending-by-count ordering used by the ranking sort. -/
def countGE (a b : Rgb × Nat) : Prop := b.2 ≤ a.2

lemma insertDesc_perm (x : Rgb × Nat) (l : List (Rgb × Nat)) :
    List.Perm (insertDesc x l) (x :: l) := by
  induction l with
  | nil => simp [insertDesc]
  | cons y t ih =>
    rw [insertDesc]
    split
    · exact (ih.cons y).trans (List.Perm.swap x y t)
    · exact List.Perm.refl _

lemma sortDesc_perm (l : List (Rgb × Nat)) : List.Perm (sortDesc l) l := by
  induction l with
  | nil => exact List.Perm.refl _
  | cons x t ih => exact (insertDesc_perm x (sortDesc t)).trans (ih.cons x)

lemma insertDesc_pairwise (x : Rgb × Nat) {l : List (Rgb × Nat)}
    (h : l.Pairwise countGE) : (insertDesc x l).Pairwise countGE := by
  induction l with
  | nil => simp [insertDesc, countGE]
  | cons y t ih =>
    rw [insertDesc]
    rw [List.pairwise_cons] at h
    split
    · rename_i hlt
      refine List.pairwise_cons.mpr ⟨?_, ih h.2⟩
      intro z hz
      rcases List.mem_cons.mp ((insertDesc_perm x t).mem_iff.mp hz) with hz | hz
      · subst hz; exact Nat.le_of_lt hlt
      · exact h.1 z hz
    · rename_i hge
      refine List.pairwise_cons.mpr ⟨?_, List.pairwise_cons.mpr h⟩
      intro z hz
      rcases List.mem_cons.mp hz with hz | hz
      · subst hz; exact Nat.le_of_not_lt hge
      · exact le_trans (h.1 z hz) (Nat.le_of_not_lt hge)

lemma sortDesc_pairwise (l : List (Rgb × Nat)) : (sortDesc l).Pairwise countGE := by
  induction l with
  | nil => simp [sortDesc]
  | cons x t ih => exact insertDesc_pairwise x ih

lemma ranked_pairwise (mc mp : Nat) (counts : List (Rgb × Nat)) :
    (ranked mc mp counts).Pairwise countGE :=
  (sortDesc_pairwise (relaxed_counts mp counts)).sublist
    (List.take_sublist mc _)

lemma pct_mono (T : Nat) {a b : Nat} (h : a ≤ b) :
    ((a : ℚ) / (T : ℚ)) * 100 ≤ ((b : ℚ) / (T : ℚ)) * 100 := by
  have ha : ((a : ℚ) / (T : ℚ)) * 100 = (a : ℚ) * (100 / (T : ℚ)) := by ring
  have hb : ((b : ℚ) / (T : ℚ)) * 100 = (b : ℚ) * (100 / (T : ℚ)) := by ring
  rw [ha, hb]
  exact mul_le_mul_of_nonneg_right (by exact_mod_cast h) (by positivity)

/-- C7 -- The entries returned by `extract_colors_by_pixel_count` are
sorted by `percentage` descending: every adjacent pair `i`, `i+1`
satisfies `entries[i].percentage >= entries[i+1].percentage` (on the
fallback path the single entry is trivially sorted). -/
theorem entries_sorted_descending
    (resample : List (List Rgb) → Nat → Nat → List (List Rgb))
    (input : Except String (List (List Rgb)))
    (mc mp : Nat) (rng : Nat × Nat) :
    (extract_colors_by_pixel_count resample input mc mp rng).Chain'
      (fun a b => b.percentage ≤ a.percentage) := by
  cases input with
  | error e => simp [extract_colors_by_pixel_count]
  | ok img =>
    apply List.Pairwise.chain'
    rw [extract_colors_by_pixel_count, extract_colors_ok, List.pairwise_map]
    refine (ranked_pairwise mc mp _).imp ?_
    intro a b hab
    exact pct_mono _ hab

/-- C4 -- For a fixed image, fixed parameters, and in particular any two
values of the nondeterministic input (the `random` source consumed only
by the dead error branch of the position finder), two calls to
`extract_colors_by_pixel_count` return identical output: same colors,
same order, same percentages, same positions. -/
theorem extraction_deterministic
    (resample : List (List Rgb) → Nat → Nat → List (List Rgb))
    (input : Except String (List (List Rgb)))
    (mc mp : Nat) (rng₁ rng₂ : Nat × Nat) :
    extract_colors_by_pixel_count resample input mc mp rng₁ =
      extract_colors_by_pixel_count resample input mc mp rng₂ := by
  cases input <;> rfl

/-- C3 -- When extraction fails internally (the `try` block raises, here:
the decode step returns an error), `extract_colors_by_pixel_count`
propagates nothing and returns exactly the one fallback entry: rgb
`(128,128,128)`, hex `"#808080"`, percentage `100`, with a position set. -/
theorem internal_failure_returns_gray_fallback
    (resample : List (List Rgb) → Nat → Nat → List (List Rgb))
    (e : String) (mc mp : Nat) (rng : Nat × Nat) :
    extract_colors_by_pixel_count resample (.error e) mc mp rng =
      [{ rgb := (128, 128, 128), hex_code := "#808080",
         percentage := 100, position := some (0, 0) }] := rfl

/-- C10 -- The returned list never exceeds `maxColors` entries, also on
the internal-failure fallback path (which returns one entry). -/
theorem result_length_le_max_colors
    (resample : List (List Rgb) → Nat → Nat → List (List Rgb))
    (input : Except String (List (List Rgb)))
    (mc mp : Nat) (rng : Nat × Nat) (hmc : 1 ≤ mc) :
    (extract_colors_by_pixel_count resample input mc mp rng).length ≤ mc := by
  cases input with
  | error e => simpa [extract_colors_by_pixel_count] using hmc
  | ok img =>
    rw [extract_colors_by_pixel_count, extract_colors_ok, List.length_map]
    exact List.length_take_le mc _

/-- Witness for C10 at a concrete image and the default parameters. -/
theorem result_length_le_max_colors_witness :
    (extract_colors_by_pixel_count keepResample (.ok [[(0, 0, 0)]])
      16 100 (0, 0)).length ≤ 16 :=
  result_length_le_max_colors keepResample (.ok [[(0, 0, 0)]]) 16 100 (0, 0)
    (by decide)

lemma addCount_sum (acc : List (Rgb × Nat)) (p : Rgb) :
    ((addCount acc p).map Prod.snd).sum = (acc.map Prod.snd).sum + 1 := by
  induction acc with
  | nil => simp [addCount]
  | cons qn t ih =>
    obtain ⟨q, n⟩ := qn
    rw [addCount]
    split
    · simp [Nat.add_assoc, Nat.add_comm 1]
    · simp only [List.map_cons, List.sum_cons, ih]
      omega

lemma foldl_addCount_sum (pixels : List Rgb) :
    ∀ acc : List (Rgb × Nat),
      ((pixels.foldl addCount acc).map Prod.snd).sum =
        (acc.map Prod.snd).sum + pixels.length := by
  induction pixels with
  | nil => intro acc; simp
  | cons p ps ih =>
    intro acc
    rw [List.foldl_cons, ih (addCount acc p), addCount_sum]
    simp [Nat.add_assoc, Nat.add_comm 1]

/-- The histogram counts of `_count_colors` sum to the number of sampled
pixels. -/
lemma count_colors_sum (pixels : List Rgb) :
    ((count_colors pixels).map Prod.snd).sum = pixels.length := by
  simpa using foldl_addCount_sum pixels []

lemma filtered_counts_sum_le (thr : Nat) (counts : List (Rgb × Nat)) :
    ((filtered_counts thr counts).map Prod.snd).sum ≤
      (counts.map Prod.snd).sum :=
  List.Sublist.sum_le_sum
    ((List.filter_sublist counts).map Prod.snd) (fun _ _ => Nat.zero_le _)

lemma relaxed_counts_sum_le (mp : Nat) (counts : List (Rgb × Nat)) :
    ((relaxed_counts mp counts).map Prod.snd).sum ≤
      (counts.map Prod.snd).sum := by
  rw [relaxed_counts]
  split <;> exact filtered_counts_sum_le _ counts

lemma ranked_sum_le (mc mp : Nat) (counts : List (Rgb × Nat)) :
    ((ranked mc mp counts).map Prod.snd).sum ≤ (counts.map Prod.snd).sum := by
  refine le_trans ?_ (relaxed_counts_sum_le mp counts)
  calc ((ranked mc mp counts).map Prod.snd).sum
      ≤ ((sortDesc (relaxed_counts mp counts)).map Prod.snd).sum :=
        List.Sublist.sum_le_sum
          ((List.take_sublist mc _).map Prod.snd) (fun _ _ => Nat.zero_le _)
    _ = ((relaxed_counts mp counts).map Prod.snd).sum :=
        ((sortDesc_perm _).map Prod.snd).sum_eq

lemma sum_map_pct (l : List (Rgb × Nat)) (T : Nat) :
    (l.map (fun kv => ((kv.2 : ℚ) / (T : ℚ)) * 100)).sum =
      (((l.map Prod.snd).sum : ℕ) : ℚ) / (T : ℚ) * 100 := by
  induction l with
  | nil => simp
  | cons kv t ih =>
    simp only [List.map_cons, List.sum_cons, ih]
    push_cast
    ring

/-- C8 -- The percentages of the returned entries sum to at most 100:
each percentage is `100 * count / totalSampledPixels` with
`totalSampledPixels` the pixel count of the (possibly downscaled)
sampled image, and the retained counts sum to at most that total. -/
theorem percentage_sum_le_100
    (resample : List (List Rgb) → Nat → Nat → List (List Rgb))
    (input : Except String (List (List Rgb)))
    (mc mp : Nat) (rng : Nat × Nat) :
    ((extract_colors_by_pixel_count resample input mc mp rng).map
      (fun c => c.percentage)).sum ≤ 100 := by
  cases input with
  | error e => simp [extract_colors_by_pixel_count, create_default_color]
  | ok img =>
    rw [extract_colors_by_pixel_count, extract_colors_ok]
    set pixels := (sampled_image resample img).flatten with hpx
    set T := pixels.length with hT
    have hmap : ((ranked mc mp (count_colors pixels)).map
        (mk_color_info (sampled_image resample img)
          (scale_factor (width img) (height img)) (width img) (height img)
          rng T)).map (fun c => c.percentage) =
        (ranked mc mp (count_colors pixels)).map
          (fun kv => ((kv.2 : ℚ) / (T : ℚ)) * 100) := by
      rw [List.map_map]; rfl
    rw [hmap, sum_map_pct]
    have hle : ((ranked mc mp (count_colors pixels)).map Prod.snd).sum ≤ T := by
      calc ((ranked mc mp (count_colors pixels)).map Prod.snd).sum
          ≤ ((count_colors pixels).map Prod.snd).sum :=
            ranked_sum_le mc mp (count_colors pixels)
        _ = T := count_colors_sum pixels
    rcases Nat.eq_zero_or_pos T with h0 | hpos
    · have : ((ranked mc mp (count_colors pixels)).map Prod.snd).sum = 0 := by
        omega
      rw [this]
      norm_num
    · have hTQ : (0 : ℚ) < (T : ℚ) := by exact_mod_cast hpos
      have h1 : ((((ranked mc mp (count_colors pixels)).map
          Prod.snd).sum : ℕ) : ℚ) / (T : ℚ) ≤ 1 :=
        (div_le_one hTQ).mpr (by exact_mod_cast hle)
      nlinarith [h1]

/-- A pixel whose channels are genuine 8-bit values, as every pixel of a
decoded RGB image is. -/
def valid_pixel (p : Rgb) : Prop := p.1 < 256 ∧ p.2.1 < 256 ∧ p.2.2 < 256

instance (p : Rgb) : Decidable (valid_pixel p) := by
  unfold valid_pixel; infer_instance

/-- Modelled from the spec's words, for comparison with `rgb_to_hex`:
`hexCode == "#" + uppercase-hex(rgb.r) + uppercase-hex(rgb.g) +
uppercase-hex(rgb.b)`, each channel zero-padded to exactly 2 digits. -/
def spec_hex (rgb : Rgb) : String :=
  ⟨['#', hexChar (rgb.1 / 16), hexChar (rgb.1 % 16),
        hexChar (rgb.2.1 / 16), hexChar (rgb.2.1 % 16),
        hexChar (rgb.2.2 / 16), hexChar (rgb.2.2 % 16)]⟩

lemma pad2_hexRep {n : Nat} (h : n < 256) :
    pad2 (hexRep n) = [hexChar (n / 16), hexChar (n % 16)] := by
  by_cases h16 : n < 16
  · rw [hexRep, dif_pos h16, pad2]
    simp only [List.length_cons, List.length_nil]
    rw [if_pos (by omega), Nat.div_eq_of_lt h16, Nat.mod_eq_of_lt h16]
    rfl
  · rw [hexRep, dif_neg h16]
    have hd : n / 16 < 16 := by omega
    rw [hexRep, dif_pos hd, pad2]
    simp

lemma rgb_to_hex_eq_spec {p : Rgb} (h : valid_pixel p) :
    rgb_to_hex p = spec_hex p := by
  obtain ⟨h1, h2, h3⟩ := h
  rw [rgb_to_hex, spec_hex, pad2_hexRep h1, pad2_hexRep h2, pad2_hexRep h3]
  rfl

lemma addCount_keys (acc : List (Rgb × Nat)) (p : Rgb) :
    ((addCount acc p).map Prod.fst) ⊆ p :: acc.map Prod.fst := by
  induction acc with
  | nil => simp [addCount]
  | cons qn t ih =>
    obtain ⟨q, n⟩ := qn
    rw [addCount]
    split
    · rename_i hq
      subst hq
      simp only [List.map_cons]
      intro x hx
      rcases List.mem_cons.mp hx with hx | hx
      · exact List.mem_cons_of_mem _ (hx ▸ List.mem_cons_self _ _)
      · exact List.mem_cons_of_mem _ (List.mem_cons_of_mem _ hx)
    · simp only [List.map_cons]
      intro x hx
      rcases List.mem_cons.mp hx with hx | hx
      · exact List.mem_cons_of_mem _ (hx ▸ List.mem_cons_self _ _)
      · rcases List.mem_cons.mp (ih hx) with hx | hx
        · exact hx ▸ List.mem_cons_self _ _
        · exact List.mem_cons_of_mem _ (List.mem_cons_of_mem _ hx)

lemma mem_foldl_addCount (pixels : List Rgb) :
    ∀ acc : List (Rgb × Nat), ∀ kv ∈ pixels.foldl addCount acc,
      kv.1 ∈ acc.map Prod.fst ∨ kv.1 ∈ pixels := by
  induction pixels with
  | nil => intro acc kv hkv; exact Or.inl (List.mem_map_of_mem Prod.fst hkv)
  | cons p ps ih =>
    intro acc kv hkv
    rcases ih (addCount acc p) kv hkv with hk | hk
    · rcases List.mem_cons.mp (addCount_keys acc p hk) with hk | hk
      · exact Or.inr (hk ▸ List.mem_cons_self _ _)
      · exact Or.inl hk
    · exact Or.inr (List.mem_cons_of_mem _ hk)

/-- Every key of the histogram is one of the sampled pixels. -/
lemma count_colors_keys {pixels : List Rgb} {kv : Rgb × Nat}
    (h : kv ∈ count_colors pixels) : kv.1 ∈ pixels := by
  rcases mem_foldl_addCount pixels [] kv h with hk | hk
  · simp at hk
  · exact hk

lemma mem_ranked {mc mp : Nat} {counts : List (Rgb × Nat)} {kv : Rgb × Nat}
    (h : kv ∈ ranked mc mp counts) : kv ∈ counts := by
  have h1 : kv ∈ sortDesc (relaxed_counts mp counts) :=
    (List.take_sublist mc _).subset h
  have h2 : kv ∈ relaxed_counts mp counts := (sortDesc_perm _).subset h1
  rw [relaxed_counts] at h2
  split at h2 <;> exact List.mem_of_mem_filter h2

/-- C6 -- Every returned entry's `hex_code` is exactly `"#"` followed by
the three channels of `rgb`, each as two zero-padded uppercase
hexadecimal digits (the spec formula `spec_hex`); this also holds for
the fallback gray entry.  The hypothesis states that the sampled image
consists of 8-bit pixels, which every decoded RGB image satisfies. -/
theorem hex_code_matches_rgb_formula
    (resample : List (List Rgb) → Nat → Nat → List (List Rgb))
    (img : List (List Rgb)) (mc mp : Nat) (rng : Nat × Nat)
    (hvalid : ∀ p ∈ (sampled_image resample img).flatten, valid_pixel p) :
    (∀ c ∈ extract_colors_by_pixel_count resample (.ok img) mc mp rng,
        c.hex_code = spec_hex c.rgb)
    ∧ create_default_color.hex_code = spec_hex create_default_color.rgb := by
  constructor
  · intro c hc
    rw [extract_colors_by_pixel_count, extract_colors_ok] at hc
    obtain ⟨kv, hkv, rfl⟩ := List.mem_map.mp hc
    show rgb_to_hex kv.1 = spec_hex kv.1
    exact rgb_to_hex_eq_spec (hvalid kv.1 (count_colors_keys (mem_ranked hkv)))
  · rfl

/-- Witness for C6 at a concrete one-pixel image. -/
theorem hex_code_matches_rgb_formula_witness :
    (∀ c ∈ extract_colors_by_pixel_count keepResample (.ok [[(255, 0, 10)]])
        16 1 (0, 0), c.hex_code = spec_hex c.rgb)
    ∧ create_default_color.hex_code = spec_hex create_default_color.rgb :=
  hex_code_matches_rgb_formula keepResample [[(255, 0, 10)]] 16 1 (0, 0)
    (by decide)

lemma find_color_position_bounds (img2 : List (List Rgb)) (target : Rgb)
    (s : ℚ) (ow oh : Nat) (rng : Nat × Nat) (hw : 1 ≤ ow) (hh : 1 ≤ oh) :
    (find_color_position img2 target s ow oh rng).1 < ow ∧
      (find_color_position img2 target s ow oh rng).2 < oh := by
  rw [find_color_position, find_color_position_body]
  dsimp only
  split
  · exact ⟨lt_of_le_of_lt (min_le_right _ _) (by omega),
      lt_of_le_of_lt (min_le_right _ _) (by omega)⟩
  · exact ⟨Nat.div_lt_self (by omega) (by omega),
      Nat.div_lt_self (by omega) (by omega)⟩

lemma random_fallback_bounds (ow oh : Nat) (rng : Nat × Nat)
    (hw : 1 ≤ ow) (hh : 1 ≤ oh) :
    (random_fallback_position ow oh rng).1 < ow ∧
      (random_fallback_position ow oh rng).2 < oh := by
  rw [random_fallback_position]
  have h1 : rng.1 % (ow * 3 / 4 - ow / 4 + 1) < ow * 3 / 4 - ow / 4 + 1 :=
    Nat.mod_lt _ (by omega)
  have h2 : rng.2 % (oh * 3 / 4 - oh / 4 + 1) < oh * 3 / 4 - oh / 4 + 1 :=
    Nat.mod_lt _ (by omega)
  constructor <;> simp only <;> omega

/-- C9 -- On an image of original dimensions `width × height` (both at
least 1), every position of a returned entry satisfies
`0 ≤ x < width` and `0 ≤ y < height` (lower bounds hold by the `Nat`
type), on the clamped-centroid path and the empty-mask image-center
path; the (modelled) error-fallback point in the central region obeys
the same bounds, stated as the second conjunct. -/
theorem positions_within_original_bounds
    (resample : List (List Rgb) → Nat → Nat → List (List Rgb))
    (img : List (List Rgb)) (mc mp : Nat) (rng : Nat × Nat)
    (hw : 1 ≤ width img) (hh : 1 ≤ height img) :
    (∀ c ∈ extract_colors_by_pixel_count resample (.ok img) mc mp rng,
       ∀ q : Nat × Nat, c.position = some q →
         q.1 < width img ∧ q.2 < height img)
    ∧ (∀ rngA : Nat × Nat,
        (random_fallback_position (width img) (height img) rngA).1 < width img ∧
        (random_fallback_position (width img) (height img) rngA).2 < height img) := by
  constructor
  · intro c hc q hq
    rw [extract_colors_by_pixel_count, extract_colors_ok] at hc
    obtain ⟨kv, hkv, rfl⟩ := List.mem_map.mp hc
    rw [mk_color_info] at hq
    simp only [Option.some.injEq] at hq
    subst hq
    exact find_color_position_bounds _ _ _ _ _ _ hw hh
  · intro rngA
    exact random_fallback_bounds _ _ rngA hw hh

/-- Witness for C9 at a concrete one-pixel image. -/
theorem positions_within_original_bounds_witness :
    (∀ c ∈ extract_colors_by_pixel_count keepResample (.ok [[(7, 8, 9)]])
        16 1 (0, 0), ∀ q : Nat × Nat, c.position = some q →
          q.1 < width [[(7, 8, 9)]] ∧ q.2 < height [[(7, 8, 9)]])
    ∧ (∀ rngA : Nat × Nat,
        (random_fallback_position (width [[(7, 8, 9)]])
          (height [[(7, 8, 9)]]) rngA).1 < width [[(7, 8, 9)]] ∧
        (random_fallback_position (width [[(7, 8, 9)]])
          (height [[(7, 8, 9)]]) rngA).2 < height [[(7, 8, 9)]]) :=
  positions_within_original_bounds keepResample [[(7, 8, 9)]] 16 1 (0, 0)
    (by decide) (by decide)

lemma sampled_image_single (resample : List (List Rgb) → Nat → Nat → List (List Rgb))
    (p : Rgb) : sampled_image resample [[p]] = [[p]] := by
  rw [sampled_image]
  norm_num [width, height]

lemma relaxed_counts_single {mp : Nat} (hmp : mp ≤ 10) (p : Rgb) :
    relaxed_counts mp [(p, 1)] = [(p, 1)] := by
  have hmax : max 1 (mp / 10) = 1 :=
    Nat.max_eq_left (le_trans (Nat.div_le_div_right hmp) (by norm_num))
  have hlen : (filtered_counts mp [(p, 1)]).length < 3 :=
    lt_of_le_of_lt (List.length_filter_le _ _) (by norm_num)
  rw [relaxed_counts, if_pos hlen, hmax]
  simp [filtered_counts]

lemma relaxed_counts_single_default (p : Rgb) :
    relaxed_counts 100 [(p, 1)] = [] := by
  have hlen : (filtered_counts 100 [(p, 1)]).length < 3 :=
    lt_of_le_of_lt (List.length_filter_le _ _) (by norm_num)
  rw [relaxed_counts, if_pos hlen]
  simp [filtered_counts]

lemma maskCoords_single (p : Rgb) : maskCoords [[p]] p = [(0, 0)] := by
  simp [maskCoords, List.enum, List.enumFrom, distSq]

lemma find_color_position_single (p : Rgb) (rng : Nat × Nat) :
    find_color_position [[p]] p 1 1 1 rng = (0, 0) := by
  rw [find_color_position, find_color_position_body]
  dsimp only
  rw [maskCoords_single]
  norm_num

/-- C1 (amended) -- A 1×1 image never triggers the downscale; with the
default parameters (`maxColors = 16`, `minPixelThreshold = 100`) its
single color's count 1 falls below even the relaxed threshold
`max(1, 100 / 10) = 10`, so the result is empty; whenever
`minPixelThreshold ≤ 10` (making the relaxed threshold exactly 1) the
result is exactly one entry with percentage 100 and `rgb` equal to the
pixel. -/
theorem single_pixel_extraction (p : Rgb)
    (resample : List (List Rgb) → Nat → Nat → List (List Rgb))
    (mc mp : Nat) (rng : Nat × Nat) (hmc : 1 ≤ mc) (hmp : mp ≤ 10) :
    extract_colors_by_pixel_count resample (.ok [[p]]) mc mp rng =
      [{ rgb := p, hex_code := rgb_to_hex p, percentage := 100,
         position := some (0, 0) }]
    ∧ extract_colors_by_pixel_count resample (.ok [[p]]) 16 100 rng = [] := by
  constructor
  · rw [extract_colors_by_pixel_count, extract_colors_ok, sampled_image_single]
    have hcc : count_colors ([[p]] : List (List Rgb)).flatten = [(p, 1)] := rfl
    rw [hcc, ranked, relaxed_counts_single hmp]
    obtain ⟨k, rfl⟩ := Nat.exists_eq_add_of_le hmc
    show List.map _ (List.take (1 + k) [(p, 1)]) = _
    rw [Nat.add_comm 1 k, List.take_succ_cons, List.take_nil]
    show [mk_color_info [[p]] (scale_factor (width [[p]]) (height [[p]]))
      (width [[p]]) (height [[p]]) rng ([[p]] : List (List Rgb)).flatten.length
      (p, 1)] = _
    have hsf : scale_factor (width ([[p]] : List (List Rgb)))
        (height ([[p]] : List (List Rgb))) = 1 := by
      rw [scale_factor]; norm_num [width, height]
    rw [mk_color_info, hsf]
    show [ColorInfo.mk p (rgb_to_hex p) (((1 : ℕ) : ℚ) / ((1 : ℕ) : ℚ) * 100)
      (some (find_color_position [[p]] p 1 1 1 rng))] = _
    rw [find_color_position_single]
    norm_num
  · rw [extract_colors_by_pixel_count, extract_colors_ok, sampled_image_single]
    have hcc : count_colors ([[p]] : List (List Rgb)).flatten = [(p, 1)] := rfl
    rw [hcc, ranked, relaxed_counts_single_default]
    rfl

/-- Witness for C1 (amended) at a concrete pixel, discharging both
hypotheses. -/
theorem single_pixel_extraction_witness :
    extract_colors_by_pixel_count keepResample (.ok [[((3, 4, 5) : Rgb)]])
        16 10 (0, 0) =
      [{ rgb := (3, 4, 5), hex_code := rgb_to_hex (3, 4, 5),
         percentage := 100, position := some (0, 0) }]
    ∧ extract_colors_by_pixel_count keepResample (.ok [[((3, 4, 5) : Rgb)]])
        16 100 (0, 0) = [] :=
  single_pixel_extraction (3, 4, 5) keepResample 16 10 (0, 0)
    (by decide) (by decide)

/-- Counterexample to C1 as stated: on the 1×1 image whose pixel is
`(0,0,0)`, extraction with the default parameters returns the empty
list, not one entry of percentage 100. -/
theorem single_pixel_default_returns_empty :
    extract_colors_by_pixel_count keepResample (.ok [[((0, 0, 0) : Rgb)]])
      16 100 (0, 0) = [] := rfl

/-- C2 (amended) -- With the default parameters, when fewer than 3
distinct colors clear `minPixelThreshold = 100`, the threshold is
relaxed to `max(1, 100 / 10) = 10` and the result contains at least
`min(3, number of distinct colors whose count clears the RELAXED
threshold 10)` entries.  (Colors whose count is below 10 stay excluded,
so `min(3, total-distinct-color-count)` is not guaranteed.) -/
theorem relaxation_keeps_relaxed_clearing_colors
    (resample : List (List Rgb) → Nat → Nat → List (List Rgb))
    (img : List (List Rgb)) (rng : Nat × Nat)
    (hfew : (filtered_counts 100
      (count_colors (sampled_image resample img).flatten)).length < 3) :
    min 3 (filtered_counts 10
        (count_colors (sampled_image resample img).flatten)).length ≤
      (extract_colors_by_pixel_count resample (.ok img) 16 100 rng).length := by
  rw [extract_colors_by_pixel_count, extract_colors_ok, List.length_map, ranked,
    List.length_take]
  have hrel : relaxed_counts 100
      (count_colors (sampled_image resample img).flatten) =
      filtered_counts 10
        (count_colors (sampled_image resample img).flatten) := by
    rw [relaxed_counts, if_pos hfew]
    norm_num
  rw [(sortDesc_perm _).length_eq, hrel]
  omega

/-- Witness for C2 (amended): ten identical pixels clear the relaxed
threshold and produce one entry. -/
theorem relaxation_keeps_relaxed_clearing_colors_witness :
    min 3 (filtered_counts 10
        (count_colors (sampled_image keepResample
          [List.replicate 10 ((5, 5, 5) : Rgb)]).flatten)).length ≤
      (extract_colors_by_pixel_count keepResample
        (.ok [List.replicate 10 ((5, 5, 5) : Rgb)]) 16 100 (0, 0)).length :=
  relaxation_keeps_relaxed_clearing_colors keepResample
    [List.replicate 10 ((5, 5, 5) : Rgb)] (0, 0) (by decide)

/-- Counterexample to C2 as stated: a 1×2 image with two distinct colors
(each of count 1) has fewer than 3 colors clearing the threshold 100,
yet after relaxation to 10 the result is empty, so it does not reach
`min(3, distinct-color-count) = 2` entries. -/
theorem two_color_image_relaxation_falls_short :
    (filtered_counts 100 (count_colors (sampled_image keepResample
        [[((0, 0, 0) : Rgb), (1, 1, 1)]]).flatten)).length < 3
    ∧ ¬ (min 3 (count_colors (sampled_image keepResample
          [[((0, 0, 0) : Rgb), (1, 1, 1)]]).flatten).length ≤
        (extract_colors_by_pixel_count keepResample
          (.ok [[((0, 0, 0) : Rgb), (1, 1, 1)]]) 16 100 (0, 0)).length) := by
  constructor
  · decide
  · decide

/-- C5 (amended) -- Images with `max(width, height) ≤ 800` are not
resized and the recorded scale factor is `1.0`; for larger images the
recorded scale factor is `s = 800 / max(originalWidth, originalHeight)`
and, in exact arithmetic, the longer side of `new_size =
(int(width*s), int(height*s))` is exactly 800.  (In the source's IEEE
double arithmetic the truncation `int(d * (800/d))` can instead give
799 — see the counterexample — so "exactly 800" holds only up to that
rounding.) -/
theorem resize_dims_exact_arith
    (resample : List (List Rgb) → Nat → Nat → List (List Rgb))
    (img : List (List Rgb)) :
    (max (width img) (height img) ≤ 800 →
      sampled_image resample img = img ∧
      scale_factor (width img) (height img) = 1)
    ∧ (800 < max (width img) (height img) →
      scale_factor (width img) (height img) =
        800 / ((max (width img) (height img) : ℕ) : ℚ)
      ∧ max (sampled_dims (width img) (height img)).1
            (sampled_dims (width img) (height img)).2 = 800) := by
  set ow := width img
  set oh := height img
  constructor
  · intro hle
    constructor
    · rw [sampled_image, if_neg (by omega)]
    · rw [scale_factor, if_neg (by omega)]
  · intro hgt
    have hsf : scale_factor ow oh = 800 / ((max ow oh : ℕ) : ℚ) := by
      rw [scale_factor, if_pos hgt]
    refine ⟨hsf, ?_⟩
    have hd0 : ((max ow oh : ℕ) : ℚ) ≠ 0 := Nat.cast_ne_zero.mpr (by omega)
    have heq : ((max ow oh : ℕ) : ℚ) * (800 / ((max ow oh : ℕ) : ℚ)) = 800 := by
      rw [mul_comm, div_mul_cancel₀ _ hd0]
    have hlong : (⌊((max ow oh : ℕ) : ℚ) * (800 / ((max ow oh : ℕ) : ℚ))⌋).toNat
        = 800 := by
      rw [heq]
      have h800 : ⌊(800 : ℚ)⌋ = 800 := by norm_num
      rw [h800]
      decide
    have hshort : ∀ s' : ℕ, s' ≤ max ow oh →
        (⌊(s' : ℚ) * (800 / ((max ow oh : ℕ) : ℚ))⌋).toNat ≤ 800 := by
      intro s' hs
      have hle1 : (s' : ℚ) * (800 / ((max ow oh : ℕ) : ℚ)) ≤
          ((max ow oh : ℕ) : ℚ) * (800 / ((max ow oh : ℕ) : ℚ)) :=
        mul_le_mul_of_nonneg_right (by exact_mod_cast hs) (by positivity)
      have hfle : ⌊(s' : ℚ) * (800 / ((max ow oh : ℕ) : ℚ))⌋ ≤ (800 : ℤ) := by
        calc ⌊(s' : ℚ) * (800 / ((max ow oh : ℕ) : ℚ))⌋
            ≤ ⌊(800 : ℚ)⌋ := Int.floor_le_floor (hle1.trans_eq heq)
          _ = 800 := by norm_num
      exact Int.toNat_le.mpr hfle
    rw [sampled_dims, hsf]
    rcases Nat.le_total ow oh with hc | hc
    · have hm : max ow oh = oh := Nat.max_eq_right hc
      have h2 : (⌊(oh : ℚ) * (800 / ((max ow oh : ℕ) : ℚ))⌋).toNat = 800 := by
        conv_lhs => rw [show ((oh : ℕ) : ℚ) = ((max ow oh : ℕ) : ℚ) by rw [hm]]
        exact hlong
      have h1 : (⌊(ow : ℚ) * (800 / ((max ow oh : ℕ) : ℚ))⌋).toNat ≤ 800 :=
        hshort ow (Nat.le_max_left _ _)
      simp only
      rw [h2]
      exact Nat.max_eq_right h1
    · have hm : max ow oh = ow := Nat.max_eq_left hc
      have h2 : (⌊(ow : ℚ) * (800 / ((max ow oh : ℕ) : ℚ))⌋).toNat = 800 := by
        conv_lhs => rw [show ((ow : ℕ) : ℚ) = ((max ow oh : ℕ) : ℚ) by rw [hm]]
        exact hlong
      have h1 : (⌊(oh : ℚ) * (800 / ((max ow oh : ℕ) : ℚ))⌋).toNat ≤ 800 :=
        hshort oh (Nat.le_max_right _ _)
      simp only
      rw [h2]
      exact Nat.max_eq_left h1

/-- A 900×1 image, longer side above the 800 px cap. -/
def wideRow : List (List Rgb) := [List.replicate 900 ((0, 0, 0) : Rgb)]

set_option maxRecDepth 4000 in
/-- Witness for C5 (amended): a small image is left alone; the 900-wide
image records `s = 800/900` and, in exact arithmetic, is resized to a
longer side of exactly 800. -/
theorem resize_dims_exact_arith_witness :
    (sampled_image keepResample [[((1, 2, 3) : Rgb)]] = [[((1, 2, 3) : Rgb)]]
      ∧ scale_factor (width [[((1, 2, 3) : Rgb)]])
          (height [[((1, 2, 3) : Rgb)]]) = 1)
    ∧ (scale_factor (width wideRow) (height wideRow) =
        800 / ((max (width wideRow) (height wideRow) : ℕ) : ℚ)
      ∧ max (sampled_dims (width wideRow) (height wideRow)).1
            (sampled_dims (width wideRow) (height wideRow)).2 = 800) :=
  ⟨(resize_dims_exact_arith keepResample [[((1, 2, 3) : Rgb)]]).1 (by decide),
   (resize_dims_exact_arith keepResample wideRow).2 (by decide)⟩

/-- Counterexample to C5 as stated: for an original longer side of 1078
pixels, the source's float computation `int(d * (800 / d))` (modelled
exactly by binary64 rounding) produces a sampled longer side of 799,
not 800. -/
theorem fp_resize_1078_gives_799 : fp_resized_longer_side 1078 = 799 := by
  have hp1 : pow2 (-1 - 52) = 1 / 9007199254740992 := by
    have h : (-(-1 - 52) : ℤ).toNat = 53 := by decide
    rw [pow2, if_neg (by decide), h]
    norm_num
  have hp2 : pow2 (9 - 52) = 1 / 8796093022208 := by
    have h : (-(9 - 52) : ℤ).toNat = 43 := by decide
    rw [pow2, if_neg (by decide), h]
    norm_num
  have h1 : fl (800 / (1078 : ℚ)) = 6684377925596283 / 9007199254740992 := by
    have he : floorLog2 ((800 : ℚ) / 1078) = -1 := by
      rw [floorLog2]
      norm_num [pow2, Nat.log2]
    rw [fl, if_neg (by norm_num)]
    dsimp only
    rw [he, hp1, roundHalfEven]
    norm_num
  have h2 : fl ((3602879701896396537 : ℚ) / 4503599627370496) =
      7036874417766399 / 8796093022208 := by
    have he : floorLog2 ((3602879701896396537 : ℚ) / 4503599627370496) = 9 := by
      have hlog : Nat.log2 799 = 9 := by norm_num [Nat.log2]
      have h799 : (799 : ℤ).toNat = 799 := by decide
      have hp9 : pow2 9 = 512 := by
        have h : (9 : ℤ).toNat = 9 := by decide
        rw [pow2, if_pos (by decide), h]
        norm_num
      have hp10 : pow2 10 = 1024 := by
        have h : (10 : ℤ).toNat = 10 := by decide
        rw [pow2, if_pos (by decide), h]
        norm_num
      have hfl : ⌊(3602879701896396537 : ℚ) / 4503599627370496⌋ = 799 := by
        norm_num
      rw [floorLog2]
      norm_num [hfl, h799, hlog, hp9, hp10]
    rw [fl, if_neg (by norm_num)]
    dsimp only
    rw [he, hp2, roundHalfEven]
    norm_num
  rw [fp_resized_longer_side]
  simp only [Nat.cast_ofNat]
  rw [h1]
  have hX : (1078 : ℚ) * (6684377925596283 / 9007199254740992) =
      3602879701896396537 / 4503599627370496 := by norm_num
  rw [hX, h2]
  have hff : ⌊(7036874417766399 : ℚ) / 8796093022208⌋ = 799 := by norm_num
  rw [hff]
  decide

end QtPicColor
